import Mathlib

/-!
Verification of the result-aggregation logic of the lab-notebook frontend
(`OutputPage.tsx`) and of the material-ratio recomputation of the experiment
form page, against the natural-language specification.

JavaScript numbers are modelled as the extended rationals together with NaN
(`JSNum`): every finite double is treated as an exact rational, which is the
standard idealisation for this kind of arithmetic (none of the verified
properties depend on binary rounding).  Strings, `null` and `undefined` are
modelled explicitly, as is JavaScript's `Number(...)` coercion on the string
shapes this application produces.
-/

namespace NoteApp

/-- A JavaScript number: NaN, +Infinity, -Infinity, or a finite value
(modelled as an exact rational). -/
inductive JSNum where
  | nan : JSNum
  | inf : JSNum
  | ninf : JSNum
  | fin : ℚ → JSNum
deriving DecidableEq, Repr

namespace JSNum

/-- `isNaN(x)` -/
def isNaN : JSNum → Bool
  | .nan => true
  | _ => false

/-- JavaScript addition `a + b` on numbers. -/
def add : JSNum → JSNum → JSNum
  | .nan, _ => .nan
  | _, .nan => .nan
  | .inf, .ninf => .nan
  | .ninf, .inf => .nan
  | .inf, _ => .inf
  | _, .inf => .inf
  | .ninf, _ => .ninf
  | _, .ninf => .ninf
  | .fin a, .fin b => .fin (a + b)

/-- JavaScript subtraction `a - b` on numbers. -/
def sub : JSNum → JSNum → JSNum
  | .nan, _ => .nan
  | _, .nan => .nan
  | .inf, .inf => .nan
  | .ninf, .ninf => .nan
  | .inf, _ => .inf
  | .ninf, _ => .ninf
  | _, .inf => .ninf
  | _, .ninf => .inf
  | .fin a, .fin b => .fin (a - b)

/-- JavaScript multiplication `a * b` on numbers. -/
def mul : JSNum → JSNum → JSNum
  | .nan, _ => .nan
  | _, .nan => .nan
  | .inf, .inf => .inf
  | .inf, .ninf => .ninf
  | .ninf, .inf => .ninf
  | .ninf, .ninf => .inf
  | .inf, .fin q => if 0 < q then .inf else if q < 0 then .ninf else .nan
  | .fin q, .inf => if 0 < q then .inf else if q < 0 then .ninf else .nan
  | .ninf, .fin q => if 0 < q then .ninf else if q < 0 then .inf else .nan
  | .fin q, .ninf => if 0 < q then .ninf else if q < 0 then .inf else .nan
  | .fin a, .fin b => .fin (a * b)

/-- JavaScript division `a / b` on numbers (signed zero is conflated with
zero, which is irrelevant to every call site verified here). -/
def div : JSNum → JSNum → JSNum
  | .nan, _ => .nan
  | _, .nan => .nan
  | .inf, .inf => .nan
  | .inf, .ninf => .nan
  | .ninf, .inf => .nan
  | .ninf, .ninf => .nan
  | .inf, .fin q => if 0 ≤ q then .inf else .ninf
  | .ninf, .fin q => if 0 ≤ q then .ninf else .inf
  | .fin _, .inf => .fin 0
  | .fin _, .ninf => .fin 0
  | .fin a, .fin b =>
    if b = 0 then (if 0 < a then .inf else if a < 0 then .ninf else .nan)
    else .fin (a / b)

/-- Division of a JavaScript number by a natural-number count (the shape
used for means: `sum / nums.length`). -/
def divNat : JSNum → ℕ → JSNum
  | .nan, _ => .nan
  | .inf, _ => .inf
  | .ninf, _ => .ninf
  | .fin q, 0 => if 0 < q then .inf else if q < 0 then .ninf else .nan
  | .fin q, n + 1 => .fin (q / ((n : ℚ) + 1))

/-- JavaScript `a < b` (false whenever either side is NaN). -/
def ltb : JSNum → JSNum → Bool
  | .nan, _ => false
  | _, .nan => false
  | .ninf, .ninf => false
  | .ninf, _ => true
  | _, .ninf => false
  | .inf, _ => false
  | _, .inf => true
  | .fin a, .fin b => decide (a < b)

/-- `Math.max(a, b)`: NaN-propagating binary maximum. -/
def max2 (a b : JSNum) : JSNum :=
  if a.isNaN || b.isNaN then .nan else if a.ltb b then b else a

/-- `Math.min(a, b)`: NaN-propagating binary minimum. -/
def min2 (a b : JSNum) : JSNum :=
  if a.isNaN || b.isNaN then .nan else if b.ltb a then b else a

/-- JavaScript truthiness of a number: `0` and `NaN` are falsy. -/
def truthy : JSNum → Bool
  | .nan => false
  | .fin q => decide (q ≠ 0)
  | _ => true

end JSNum

/-- `Math.max(...l)`: `-Infinity` on the empty spread. -/
def jsMaxList (l : List JSNum) : JSNum := l.foldl JSNum.max2 .ninf

/-- `Math.min(...l)`: `+Infinity` on the empty spread. -/
def jsMinList (l : List JSNum) : JSNum := l.foldl JSNum.min2 .inf

/-- `a || b` restricted to numbers: `b` when `a` is falsy. -/
def jsOrElse (a b : JSNum) : JSNum := if a.truthy then a else b

/-- Digit run to a natural number accumulator (`none` on a non-digit). -/
def digitsToNat : List Char → ℕ → Option ℕ
  | [], acc => some acc
  | c :: cs, acc =>
    if c.isDigit then digitsToNat cs (10 * acc + (c.toNat - 48)) else none

/-- Unsigned decimal literal (digits with an optional fractional part) to an
exact rational; `none` when the shape is not a decimal literal. -/
def parseDecimal (cs : List Char) : Option ℚ :=
  let intPart := cs.takeWhile (fun c => c.isDigit)
  let rest := cs.dropWhile (fun c => c.isDigit)
  match rest with
  | [] =>
    if intPart.isEmpty then none
    else (digitsToNat intPart 0).map (fun n => (n : ℚ))
  | '.' :: frac =>
    if frac.all (fun c => c.isDigit) && !(intPart.isEmpty && frac.isEmpty) then
      match digitsToNat intPart 0, digitsToNat frac 0 with
      | some n, some f => some ((n : ℚ) + (f : ℚ) / ((10 : ℚ) ^ frac.length))
      | _, _ => none
    else none
  | _ => none

/-- Models JavaScript `Number(s)` on the string shapes this application
produces: the empty string coerces to `0`, an optional sign followed by
`Infinity` to the corresponding infinity, an optional sign followed by a
decimal literal to its exact value, and every other shape to NaN
(hexadecimal, exponent and padded-whitespace forms do not occur here). -/
def jsStringToNumber (s : String) : JSNum :=
  match s.toList with
  | [] => .fin 0
  | cs =>
    let signBody : ℚ × List Char :=
      match cs with
      | '-' :: rest => (-1, rest)
      | '+' :: rest => (1, rest)
      | rest => (1, rest)
    if signBody.2 = "Infinity".toList then
      (if signBody.1 = 1 then .inf else .ninf)
    else
      match parseDecimal signBody.2 with
      | some q => .fin (signBody.1 * q)
      | none => .nan

/-- A primitive JSON-ish value as found inside `result_values`. -/
inductive Prim where
  | num : JSNum → Prim
  | str : String → Prim
  | null : Prim
  | undefined : Prim
deriving DecidableEq, Repr

/-- JavaScript `Number(p)` on a primitive (`Number(null) = 0`,
`Number(undefined) = NaN`). -/
def Prim.toNumber : Prim → JSNum
  | .num x => x
  | .str s => jsStringToNumber s
  | .null => .fin 0
  | .undefined => .nan

/-- JavaScript `Number(p ?? NaN)`: `null` and `undefined` are first replaced
by NaN by the nullish-coalescing operator. -/
def Prim.toNumberOrNaN : Prim → JSNum
  | .null => .nan
  | .undefined => .nan
  | p => p.toNumber

/-- A `RawValue`: the value found at `result_values[key]` — a scalar
primitive or an array of primitives. -/
inductive RawValue where
  | prim : Prim → RawValue
  | arr : List Prim → RawValue
deriving DecidableEq, Repr

/-- An experiment as consumed by the output page (only the fields the
aggregation logic reads). -/
structure Experiment where
  name : String
  result_values : List (String × RawValue)
deriving DecidableEq, Repr

/-- `ex.result_values?.[key]`: `undefined` when the key is absent. -/
def getRV (ex : Experiment) (key : String) : RawValue :=
  match ex.result_values.find? (fun p => p.1 == key) with
  | some p => p.2
  | none => .prim .undefined

/-- `toNumericSummary` (OutputPage.tsx lines 169-177): the mean of the
numeric coercions of an array (NaN when none survive), or the scalar
coercion `Number(value ?? NaN)`. -/
def toNumericSummary : RawValue → JSNum
  | .arr l =>
    let nums := (l.map Prim.toNumber).filter (fun v => !v.isNaN)
    if nums.length = 0 then .nan
    else (nums.foldl JSNum.add (.fin 0)).divNat nums.length
  | .prim p => p.toNumberOrNaN

/-- `extractValues` (OutputPage.tsx lines 223-228): the normalizer turning
one raw value into its list of numeric samples. -/
def extractValues : RawValue → List JSNum
  | .arr l => (l.map Prim.toNumber).filter (fun v => !v.isNaN)
  | .prim p => if p.toNumberOrNaN.isNaN then [] else [p.toNumberOrNaN]

/-- One point of a bar/line series. -/
structure ChartPoint where
  name : String
  value : JSNum
deriving DecidableEq, Repr

/-- `getChartData` (OutputPage.tsx lines 179-188): one mean point per visible
experiment with a numeric summary, in reverse iteration order. -/
def getChartData (key : String) (visibleExperiments : List Experiment) :
    List ChartPoint :=
  if key = "" then []
  else
    ((visibleExperiments.map (fun ex =>
        ChartPoint.mk ex.name (toNumericSummary (getRV ex key)))).filter
      (fun d => !d.value.isNaN)).reverse

/-- One point of the scatter chart. -/
structure ScatterPoint where
  name : String
  x : JSNum
  y : JSNum
deriving DecidableEq, Repr

/-- `scatterData` (OutputPage.tsx lines 267-276): one (x, y) pair per visible
experiment whose summaries under both keys are numeric. -/
def scatterData (scatterXKey scatterYKey : String)
    (visibleExperiments : List Experiment) : List ScatterPoint :=
  if scatterXKey = "" ∨ scatterYKey = "" then []
  else
    (visibleExperiments.map (fun ex =>
        ScatterPoint.mk ex.name
          (toNumericSummary (getRV ex scatterXKey))
          (toNumericSummary (getRV ex scatterYKey)))).filter
      (fun d => !d.x.isNaN && !d.y.isNaN)

/-- Insert into an ascending list using the JavaScript `<` comparison; folding
this over a list reproduces the outcome of `[...values].sort((a, b) => a - b)`
on NaN-free input (the only input the call sites produce). -/
def insertAsc (x : JSNum) : List JSNum → List JSNum
  | [] => [x]
  | y :: ys => if x.ltb y then x :: y :: ys else y :: insertAsc x ys

/-- `[...values].sort((a, b) => a - b)`: ascending sort. -/
def jsSortAsc (l : List JSNum) : List JSNum := l.foldr insertAsc []

/-- The five-number summary record returned by `getBoxStats`. -/
structure BoxStats where
  min : JSNum
  q1 : JSNum
  median : JSNum
  q3 : JSNum
  max : JSNum
deriving DecidableEq, Repr

/-- The inner `median` helper of `getBoxStats`: average of the two middle
elements for even length, middle element for odd length.  Out-of-range
indexing yields `undefined` in JavaScript, which only ever feeds arithmetic
here and is therefore conflated with NaN. -/
def jsMedian (arr : List JSNum) : JSNum :=
  let mid := arr.length / 2
  if arr.length % 2 = 0 then
    ((arr.getD (mid - 1) .nan).add (arr.getD mid .nan)).divNat 2
  else arr.getD mid .nan

/-- `getBoxStats` (OutputPage.tsx lines 200-218): five-number summary via
sort and median-of-halves, the overall median element excluded from both
halves when the length is odd. -/
def getBoxStats (values : List JSNum) : BoxStats :=
  let sorted := jsSortAsc values
  let mid := sorted.length / 2
  let lower := sorted.take mid
  let upper :=
    if sorted.length % 2 = 0 then sorted.drop mid else sorted.drop (mid + 1)
  { min := sorted.getD 0 .nan
    q1 := if lower.length ≠ 0 then jsMedian lower else sorted.getD 0 .nan
    median := jsMedian sorted
    q3 :=
      if upper.length ≠ 0 then jsMedian upper
      else sorted.getD (sorted.length - 1) .nan
    max := sorted.getD (sorted.length - 1) .nan }

/-- The shared-scale computation of `boxPlotSeries` (OutputPage.tsx lines
235-240): global min/max over the flattened samples, range defaulted to 1
when the difference is falsy, 10% padding on each side. -/
def boxScale (flattened : List JSNum) : JSNum × JSNum :=
  let globalMax := jsMaxList flattened
  let globalMin := jsMinList flattened
  let range := jsOrElse (globalMax.sub globalMin) (.fin 1)
  let padding := range.mul (.fin (1 / 10))
  (globalMin.sub padding, globalMax.add padding)

/-- `getPos` (OutputPage.tsx line 243): top-anchored linear position of a
value against the shared scale. -/
def getPos (yMin yRange v : JSNum) : JSNum :=
  (JSNum.fin 180).sub (((v.sub yMin).div yRange).mul (.fin 160))

/-- One entry of `boxPlotSeries`. -/
structure BoxItem where
  name : String
  stats : BoxStats
  posMin : JSNum
  posQ1 : JSNum
  posMedian : JSNum
  posQ3 : JSNum
  posMax : JSNum
deriving DecidableEq, Repr

/-- `boxPlotSeries` (OutputPage.tsx lines 220-265): per-experiment box-plot
stats and positions against the shared scale. -/
def boxPlotSeries (boxKey : String) (visibleExperiments : List Experiment) :
    List BoxItem :=
  if boxKey = "" ∨ visibleExperiments.length = 0 then []
  else
    let flattened :=
      (visibleExperiments.map (fun ex =>
        extractValues (getRV ex boxKey))).flatten
    if flattened.length = 0 then []
    else
      let scale := boxScale flattened
      let yRange := scale.2.sub scale.1
      visibleExperiments.filterMap (fun ex =>
        let vals := extractValues (getRV ex boxKey)
        if vals.length = 0 then none
        else
          let stats := getBoxStats vals
          some
            { name := ex.name
              stats := stats
              posMin := getPos scale.1 yRange stats.min
              posQ1 := getPos scale.1 yRange stats.q1
              posMedian := getPos scale.1 yRange stats.median
              posQ3 := getPos scale.1 yRange stats.q3
              posMax := getPos scale.1 yRange stats.max })

/-- The five per-chart key selections. -/
structure ChartSelection where
  barKey : String
  lineKey : String
  boxKey : String
  scatterXKey : String
  scatterYKey : String
deriving DecidableEq, Repr

/-- The key-repair effect (OutputPage.tsx lines 136-153), expressed as a pure
function from the valid quantitative-included key list and the current
selection to the repaired selection (each branch of the effect sets its piece
of state independently).  `!k` on a string is the emptiness test. -/
def repairKeys (validKeys : List String) (sel : ChartSelection) :
    ChartSelection :=
  if validKeys.length = 0 then sel
  else
    let fix := fun (k : String) =>
      if k = "" || !(validKeys.contains k) then validKeys.getD 0 "" else k
    { barKey := fix sel.barKey
      lineKey := fix sel.lineKey
      boxKey := fix sel.boxKey
      scatterXKey := fix sel.scatterXKey
      scatterYKey :=
        if sel.scatterYKey = "" || !(validKeys.contains sel.scatterYKey) then
          (if 1 < validKeys.length then validKeys.getD 1 ""
           else validKeys.getD 0 "")
        else sel.scatterYKey }

/-- Material unit of measure. -/
inductive MassUnit where
  | g : MassUnit
  | kg : MassUnit
deriving DecidableEq, Repr

/-- One material line of the experiment form.  Amounts originate from
numeric form inputs and stored JSON, so they are modelled as exact
rationals; for such an amount `Number(m.amount) || 0` is the amount itself
(`|| 0` only replaces the falsy values `0` and NaN). -/
structure MaterialLine where
  name : String
  amount : ℚ
  unit : MassUnit
  ratio : ℚ
deriving DecidableEq, Repr

/-- A `Partial<MaterialLine>` patch. -/
structure MaterialPatch where
  name : Option String
  amount : Option ℚ
  unit : Option MassUnit
  ratio : Option ℚ
deriving DecidableEq, Repr

/-- `{ ...m, ...patch }`: apply a partial patch to a material line. -/
def applyPatch (m : MaterialLine) (p : MaterialPatch) : MaterialLine :=
  { name := p.name.getD m.name
    amount := p.amount.getD m.amount
    unit := p.unit.getD m.unit
    ratio := p.ratio.getD m.ratio }

/-- `next.reduce((sum, m) => sum + (Number(m.amount) || 0), 0)`. -/
def totalAmount (ms : List MaterialLine) : ℚ :=
  ms.foldl (fun s m => s + m.amount) 0

/-- The ratio-recomputation pass shared by `updateMaterial` and
`removeMaterial` (part_003 lines 366-370 and 381-385):
`ratio := newTotal > 0 ? (amount / newTotal) * 100 : 0`. -/
def recomputeRatios (ms : List MaterialLine) : List MaterialLine :=
  let newTotal := totalAmount ms
  ms.map (fun m =>
    { m with ratio := if 0 < newTotal then m.amount / newTotal * 100 else 0 })

/-- `updateMaterial` (part_003 lines 363-372): patch the line at `idx`, then
recompute every ratio against the new total. -/
def updateMaterial (idx : ℕ) (patch : MaterialPatch)
    (prev : List MaterialLine) : List MaterialLine :=
  recomputeRatios
    (prev.mapIdx (fun i m => if i = idx then applyPatch m patch else m))

/-- `removeMaterial` (part_003 lines 378-387): drop the line at `idx`, then
recompute every ratio against the new total. -/
def removeMaterial (idx : ℕ) (prev : List MaterialLine) :
    List MaterialLine :=
  recomputeRatios (prev.eraseIdx idx)

/-- The mean exactly as the series builder computes it:
`nums.reduce((s, v) => s + v, 0) / nums.length`. -/
def jsMean (l : List JSNum) : JSNum :=
  (l.foldl JSNum.add (.fin 0)).divNat l.length

/-- Modelled from the spec: rounding "to a fixed display precision (2 decimal
digits)", i.e. to the nearest multiple of 1/100.  The chart code itself
performs no such rounding; this definition only serves to compare the spec's
description with the code. -/
def roundTo2Spec (q : ℚ) : ℚ := ((round (q * 100) : ℤ) : ℚ) / 100

section Helpers

variable {α β : Type}

lemma filter_map_eq_filterMap (f : α → β) (p : β → Bool) (l : List α) :
    (l.map f).filter p =
      l.filterMap (fun a => if p (f a) then some (f a) else none) := by
  induction l with
  | nil => rfl
  | cons a l ih =>
    simp only [List.map_cons, List.filter_cons, List.filterMap_cons]
    cases hpa : p (f a) <;> simp [hpa, ih]

lemma filterMap_ext (f g : α → Option β) (l : List α) (h : ∀ a, f a = g a) :
    l.filterMap f = l.filterMap g := by
  have : f = g := funext h
  rw [this]

end Helpers

/-!  ## Claim C1: scatter with equal X and Y keys  -/

/-- C1, counterexample: the claim states that for any non-empty experiment
list and equal scatter keys the scatter series is empty, enforced by an
explicit key-equality check.  The code has no such check: with X = Y = "k"
and one experiment whose value for "k" is the number 5, the series contains
the diagonal point ("A", 5, 5). -/
theorem scatter_same_key_nonempty :
    scatterData "k" "k" [⟨"A", [("k", .prim (.num (.fin 5)))]⟩] =
      [⟨"A", .fin 5, .fin 5⟩] ∧
    scatterData "k" "k" [⟨"A", [("k", .prim (.num (.fin 5)))]⟩] ≠ [] := by
  constructor
  · with_unfolding_all decide
  · with_unfolding_all decide

/-- C1, amended: there is no key-equality check.  When both scatter keys are
the same non-empty key, every visible experiment whose numeric summary for
that key is not NaN produces a point with x = y equal to that summary, in
iteration order; the series is empty only when every experiment is filtered
out this way. -/
theorem scatterData_same_key_diagonal (k : String)
    (visible : List Experiment) (hk : k ≠ "") :
    scatterData k k visible =
      visible.filterMap (fun ex =>
        if !(toNumericSummary (getRV ex k)).isNaN then
          some (ScatterPoint.mk ex.name (toNumericSummary (getRV ex k))
            (toNumericSummary (getRV ex k)))
        else none) := by
  show (if k = "" ∨ k = "" then [] else _) = _
  rw [if_neg (by simp [hk])]
  rw [filter_map_eq_filterMap]
  apply filterMap_ext
  intro ex
  cases h : (toNumericSummary (getRV ex k)).isNaN <;> simp [h]

/-- C1, witness for the amended theorem at a concrete input. -/
theorem scatterData_same_key_diagonal_witness :
    ("k" : String) ≠ "" ∧
    scatterData "k" "k" [⟨"B", [("k", .prim (.str "bad"))]⟩,
        ⟨"A", [("k", .prim (.num (.fin 5)))]⟩] =
      ([⟨"B", [("k", .prim (.str "bad"))]⟩,
        ⟨"A", [("k", .prim (.num (.fin 5)))]⟩] :
          List Experiment).filterMap (fun ex =>
        if !(toNumericSummary (getRV ex "k")).isNaN then
          some (ScatterPoint.mk ex.name (toNumericSummary (getRV ex "k"))
            (toNumericSummary (getRV ex "k")))
        else none) :=
  ⟨by decide, scatterData_same_key_diagonal "k"
    [⟨"B", [("k", .prim (.str "bad"))]⟩,
     ⟨"A", [("k", .prim (.num (.fin 5)))]⟩] (by decide)⟩

/-!  ## Claim C2: normalizer on array values  -/

/-- C2, counterexample: the claim states the normalizer drops `null` array
elements rather than turning them into zero, so that
`normalize([1,"2",null,"x",3]) = [1,2,3]`.  In the code each array element
goes through `Number(v)`, and `Number(null)` is `0`, which passes the NaN
filter: the actual output is `[1, 2, 0, 3]`. -/
theorem extractValues_null_kept_as_zero :
    extractValues (.arr [.num (.fin 1), .str "2", .null, .str "x",
        .num (.fin 3)]) = [.fin 1, .fin 2, .fin 0, .fin 3] ∧
    extractValues (.arr [.num (.fin 1), .str "2", .null, .str "x",
        .num (.fin 3)]) ≠ [.fin 1, .fin 2, .fin 3] := by
  constructor
  · with_unfolding_all decide
  · with_unfolding_all decide

/-- C2, amended: for an array value the normalizer keeps, in order, exactly
the elements whose JavaScript `Number` coercion is not NaN — numbers and
numeric strings with their numeric value, and `null` (which coerces to 0 and
is kept as 0); `undefined` and non-numeric strings are dropped.  In
particular `normalize([1,"2",null,"x",3]) = [1,2,0,3]`. -/
theorem extractValues_arr_characterization :
    (∀ l : List Prim, extractValues (.arr l) =
      l.filterMap (fun p =>
        if !(Prim.toNumber p).isNaN then some p.toNumber else none)) ∧
    extractValues (.arr [.num (.fin 1), .str "2", .null, .str "x",
        .num (.fin 3)]) = [.fin 1, .fin 2, .fin 0, .fin 3] := by
  constructor
  · intro l
    show (l.map Prim.toNumber).filter (fun v => !v.isNaN) = _
    rw [filter_map_eq_filterMap]
  · with_unfolding_all decide

/-!  ## Claim C5: normalizer output and NaN/Infinity  -/

/-- C5, counterexample: the claim states the normalizer's output never
contains NaN or Infinity.  The string "Infinity" coerces to +Infinity under
JavaScript `Number`, is not NaN, and is therefore kept: the output for the
scalar raw value "Infinity" is `[+Infinity]`. -/
theorem extractValues_infinity_string :
    extractValues (.prim (.str "Infinity")) = [JSNum.inf] ∧
    JSNum.inf ∈ extractValues (.prim (.str "Infinity")) := by
  constructor
  · with_unfolding_all decide
  · with_unfolding_all decide

/-- C5, amended: the normalizer's output never contains NaN, but it may
contain ±Infinity (the strings "Infinity" and "-Infinity" coerce to the
infinities and survive the NaN filter). -/
theorem extractValues_no_nan (v : RawValue) :
    (extractValues v).all (fun x => !x.isNaN) = true := by
  rw [List.all_eq_true]
  intro x hx
  cases v with
  | arr l =>
    have h2 := (List.mem_filter.mp hx).2
    simpa using h2
  | prim p =>
    simp only [extractValues] at hx
    cases h : p.toNumberOrNaN.isNaN with
    | true => rw [h] at hx; simp at hx
    | false =>
      rw [h] at hx
      simp at hx
      rw [hx]
      simp [h]

/-!  ## Claims C4 and C6: bar/line series builder  -/

lemma foldl_add_fin (qs : List ℚ) :
    ∀ a : ℚ, List.foldl JSNum.add (.fin a) (qs.map .fin) = .fin (a + qs.sum) := by
  induction qs with
  | nil => intro a; simp
  | cons q rest ih =>
    intro a
    have hstep : JSNum.add (.fin a) (.fin q) = .fin (a + q) := rfl
    simp only [List.map_cons, List.foldl_cons, hstep, ih, List.sum_cons]
    rw [add_assoc]

lemma jsMean_map_fin (qs : List ℚ) (h : qs ≠ []) :
    jsMean (qs.map .fin) = .fin (qs.sum / (qs.length : ℚ)) := by
  cases qs with
  | nil => exact absurd rfl h
  | cons q rest =>
    rw [jsMean, foldl_add_fin]
    simp only [List.length_map, List.length_cons, zero_add, JSNum.divNat]
    congr 1
    norm_cast

lemma toNumericSummary_eq_jsMean (v : RawValue)
    (h : (toNumericSummary v).isNaN = false) :
    toNumericSummary v = jsMean (extractValues v) := by
  cases v with
  | arr l =>
    by_cases hlen : ((l.map Prim.toNumber).filter (fun x => !x.isNaN)).length = 0
    · exfalso
      have : toNumericSummary (.arr l) = .nan := by
        show (if _ = 0 then JSNum.nan else _) = JSNum.nan
        rw [if_pos hlen]
      rw [this] at h
      simp [JSNum.isNaN] at h
    · show (if _ = 0 then JSNum.nan else _) = _
      rw [if_neg hlen]
      rfl
  | prim p =>
    have hval : toNumericSummary (.prim p) = p.toNumberOrNaN := rfl
    rw [hval] at h ⊢
    have hev : extractValues (.prim p) = [p.toNumberOrNaN] := by
      show (if p.toNumberOrNaN.isNaN then [] else [p.toNumberOrNaN]) = _
      rw [h]
      simp
    rw [hev]
    cases hx : p.toNumberOrNaN with
    | nan => rw [hx] at h; simp [JSNum.isNaN] at h
    | inf => rfl
    | ninf => rfl
    | fin q =>
      show JSNum.fin q = JSNum.fin ((0 + q) / ((0 : ℚ) + 1))
      norm_num

/-- C4, counterexample: the claim states that each emitted bar/line point
value is the mean rounded to 2 decimal digits.  The code performs no
rounding: for samples [1, 2, 4] the emitted value is exactly 7/3, which
differs from its 2-decimal rounding 2.33. -/
theorem getChartData_mean_not_rounded :
    getChartData "k"
        [⟨"A", [("k", .arr [.num (.fin 1), .num (.fin 2), .num (.fin 4)])]⟩] =
      [⟨"A", .fin (7 / 3)⟩] ∧
    roundTo2Spec (7 / 3) = 233 / 100 ∧ (7 / 3 : ℚ) ≠ 233 / 100 := by
  refine ⟨by with_unfolding_all decide, ?_, by norm_num⟩
  rw [roundTo2Spec]
  norm_num [round_eq]

/-- C4, amended: each emitted bar/line point carries the exact (unrounded)
arithmetic mean of its experiment's samples for the chosen key; when the
samples are the finite values `qs`, the value is exactly `qs.sum / qs.length`.
Stored `result_values` are untouched (the builder is a pure function of the
experiment list). -/
theorem getChartData_value_exact_mean (key : String)
    (visible : List Experiment) (pt : ChartPoint)
    (hp : pt ∈ getChartData key visible) :
    ∃ ex, ex ∈ visible ∧ pt.name = ex.name ∧
      pt.value = jsMean (extractValues (getRV ex key)) ∧
      ∀ qs : List ℚ, extractValues (getRV ex key) = qs.map JSNum.fin →
        qs ≠ [] ∧ pt.value = .fin (qs.sum / (qs.length : ℚ)) := by
  rw [getChartData] at hp
  by_cases hk : key = ""
  · rw [if_pos hk] at hp
    exact absurd hp (List.not_mem_nil pt)
  · rw [if_neg hk] at hp
    rw [List.mem_reverse, List.mem_filter] at hp
    obtain ⟨hmem, hnan⟩ := hp
    rw [List.mem_map] at hmem
    obtain ⟨ex, hex, hfx⟩ := hmem
    have hname : pt.name = ex.name := by rw [← hfx]
    have hvalue : pt.value = toNumericSummary (getRV ex key) := by rw [← hfx]
    have hnan2 : (toNumericSummary (getRV ex key)).isNaN = false := by
      rw [← hvalue]
      simpa using hnan
    refine ⟨ex, hex, hname, ?_, ?_⟩
    · rw [hvalue]
      exact toNumericSummary_eq_jsMean _ hnan2
    · intro qs hqs
      have hqne : qs ≠ [] := by
        intro hq0
        rw [hq0] at hqs
        simp only [List.map_nil] at hqs
        have : toNumericSummary (getRV ex key) =
            jsMean (extractValues (getRV ex key)) :=
          toNumericSummary_eq_jsMean _ hnan2
        rw [hqs] at this
        have hj : jsMean ([] : List JSNum) = .nan := by
          show JSNum.divNat _ 0 = JSNum.nan
          show (if (0:ℚ) < 0 then JSNum.inf
            else if (0:ℚ) < 0 then JSNum.ninf else JSNum.nan) = JSNum.nan
          norm_num
        rw [hj] at this
        rw [this] at hnan2
        simp [JSNum.isNaN] at hnan2
      refine ⟨hqne, ?_⟩
      rw [hvalue, toNumericSummary_eq_jsMean _ hnan2, hqs]
      exact jsMean_map_fin qs hqne

/-- C4, witness for the amended theorem: experiment "A" with samples
[2, 4] yields the point ("A", 3). -/
theorem getChartData_value_exact_mean_witness :
    (ChartPoint.mk "A" (.fin 3) ∈ getChartData "k"
      [⟨"A", [("k", .arr [.num (.fin 2), .num (.fin 4)])]⟩]) ∧
    ∃ ex, ex ∈ [(⟨"A", [("k", .arr [.num (.fin 2), .num (.fin 4)])]⟩ :
        Experiment)] ∧
      (ChartPoint.mk "A" (.fin 3)).name = ex.name ∧
      (ChartPoint.mk "A" (.fin 3)).value =
        jsMean (extractValues (getRV ex "k")) ∧
      ∀ qs : List ℚ, extractValues (getRV ex "k") = qs.map JSNum.fin →
        qs ≠ [] ∧ (ChartPoint.mk "A" (.fin 3)).value =
          .fin (qs.sum / (qs.length : ℚ)) :=
  ⟨by with_unfolding_all decide,
   getChartData_value_exact_mean "k"
     [⟨"A", [("k", .arr [.num (.fin 2), .num (.fin 4)])]⟩]
     (ChartPoint.mk "A" (.fin 3)) (by with_unfolding_all decide)⟩

/-- C6, counterexample: the claim states that exactly the experiments with an
empty normalized sample sequence are excluded from the series.  An experiment
whose samples are ["Infinity", "-Infinity"] has the non-empty normalized
sequence [+Infinity, -Infinity], yet its mean is NaN and the code excludes
it: the series is empty. -/
theorem getChartData_excludes_nonempty_samples :
    extractValues (getRV
        ⟨"B", [("k", .arr [.str "Infinity", .str "-Infinity"])]⟩ "k") =
      [JSNum.inf, JSNum.ninf] ∧
    getChartData "k"
      [⟨"B", [("k", .arr [.str "Infinity", .str "-Infinity"])]⟩] = [] := by
  constructor
  · with_unfolding_all decide
  · with_unfolding_all decide

/-- C6, amended: for a non-empty key, the series keeps exactly the visible
experiments whose numeric summary (the JavaScript mean of the coerced
samples) is not NaN — in particular every experiment with an empty sample
sequence is excluded, and an experiment with a non-empty sequence is
excluded only in the degenerate case where the mean itself is NaN (mixed
±Infinity samples); each kept experiment maps to its mean, the points appear
in exactly the reverse of the visible-experiment iteration order, and the
series length is at most the number of visible experiments. -/
theorem getChartData_filterMap_reverse (key : String)
    (visible : List Experiment) (hk : key ≠ "") :
    getChartData key visible =
      (visible.filterMap (fun ex =>
        if !(toNumericSummary (getRV ex key)).isNaN then
          some (ChartPoint.mk ex.name (toNumericSummary (getRV ex key)))
        else none)).reverse ∧
    (getChartData key visible).length ≤ visible.length := by
  have heq : getChartData key visible =
      (visible.filterMap (fun ex =>
        if !(toNumericSummary (getRV ex key)).isNaN then
          some (ChartPoint.mk ex.name (toNumericSummary (getRV ex key)))
        else none)).reverse := by
    rw [getChartData, if_neg hk, filter_map_eq_filterMap]
  refine ⟨heq, ?_⟩
  rw [heq, List.length_reverse]
  exact List.length_filterMap_le _ _

/-- C6, witness for the amended theorem at the spec's own example:
A with samples [2, 4] and B with value "bad" yield exactly [("A", 3)]. -/
theorem getChartData_filterMap_reverse_witness :
    ("k" : String) ≠ "" ∧
    (getChartData "k" [⟨"A", [("k", .arr [.num (.fin 2), .num (.fin 4)])]⟩,
        ⟨"B", [("k", .prim (.str "bad"))]⟩] =
      (([⟨"A", [("k", .arr [.num (.fin 2), .num (.fin 4)])]⟩,
        ⟨"B", [("k", .prim (.str "bad"))]⟩] :
          List Experiment).filterMap (fun ex =>
        if !(toNumericSummary (getRV ex "k")).isNaN then
          some (ChartPoint.mk ex.name (toNumericSummary (getRV ex "k")))
        else none)).reverse ∧
      (getChartData "k" [⟨"A", [("k", .arr [.num (.fin 2), .num (.fin 4)])]⟩,
        ⟨"B", [("k", .prim (.str "bad"))]⟩]).length ≤ 2) :=
  ⟨by decide,
   getChartData_filterMap_reverse "k"
     [⟨"A", [("k", .arr [.num (.fin 2), .num (.fin 4)])]⟩,
      ⟨"B", [("k", .prim (.str "bad"))]⟩] (by decide)⟩

/-!  ## Claims C3 and C7: box-plot five-number summary  -/

/-- Spec-side insertion into an ascending rational list, mirroring the
strict-less comparison of the ascending numeric sort. -/
def insertQ (q : ℚ) : List ℚ → List ℚ
  | [] => [q]
  | y :: ys => if q < y then q :: y :: ys else y :: insertQ q ys

/-- Spec-side ascending sort of rational samples. -/
def sortQ (l : List ℚ) : List ℚ := l.foldr insertQ []

/-- Spec-side median per the claim's wording: average of the two middle
elements for even length, the middle element for odd length. -/
def medianQ (s : List ℚ) : ℚ :=
  if s.length % 2 = 0 then
    (s.getD (s.length / 2 - 1) 0 + s.getD (s.length / 2) 0) / 2
  else s.getD (s.length / 2) 0

/-- Spec-side lower half of a sorted sample list (excludes the overall
median element when the length is odd). -/
def lowerHalfQ (s : List ℚ) : List ℚ := s.take (s.length / 2)

/-- Spec-side upper half of a sorted sample list (excludes the overall
median element when the length is odd). -/
def upperHalfQ (s : List ℚ) : List ℚ :=
  if s.length % 2 = 0 then s.drop (s.length / 2)
  else s.drop (s.length / 2 + 1)

lemma insertAsc_map_fin (s : List ℚ) (q : ℚ) :
    insertAsc (.fin q) (s.map .fin) = (insertQ q s).map .fin := by
  induction s with
  | nil => rfl
  | cons y ys ih =>
    show (if (JSNum.fin q).ltb (.fin y) then _ else _) = _
    by_cases h : q < y
    · rw [insertQ]
      simp [JSNum.ltb, h]
    · rw [insertQ]
      simp [JSNum.ltb, h, ih]

lemma jsSortAsc_map_fin (l : List ℚ) :
    jsSortAsc (l.map .fin) = (sortQ l).map .fin := by
  induction l with
  | nil => rfl
  | cons q rest ih =>
    show insertAsc (.fin q) (jsSortAsc (rest.map .fin)) = _
    rw [ih, insertAsc_map_fin]
    rfl

lemma insertQ_perm (s : List ℚ) (q : ℚ) : List.Perm (insertQ q s) (q :: s) := by
  induction s with
  | nil => exact List.Perm.refl _
  | cons y ys ih =>
    rw [insertQ]
    by_cases h : q < y
    · rw [if_pos h]
    · rw [if_neg h]
      exact (ih.cons y).trans (List.Perm.swap q y ys)

lemma sortQ_perm (l : List ℚ) : List.Perm (sortQ l) l := by
  induction l with
  | nil => exact List.Perm.refl _
  | cons q rest ih =>
    show List.Perm (insertQ q (sortQ rest)) (q :: rest)
    exact (insertQ_perm (sortQ rest) q).trans (ih.cons q)

lemma insertQ_sorted (s : List ℚ) (q : ℚ) (hs : s.Sorted (· ≤ ·)) :
    (insertQ q s).Sorted (· ≤ ·) := by
  induction s with
  | nil => simp [insertQ]
  | cons y ys ih =>
    rw [List.sorted_cons] at hs
    obtain ⟨hy, hys⟩ := hs
    rw [insertQ]
    by_cases h : q < y
    · rw [if_pos h, List.sorted_cons]
      refine ⟨?_, ?_⟩
      · intro b hb
        rcases List.mem_cons.mp hb with hb | hb
        · rw [hb]; exact h.le
        · exact h.le.trans (hy b hb)
      · rw [List.sorted_cons]
        exact ⟨hy, hys⟩
    · rw [if_neg h, List.sorted_cons]
      refine ⟨?_, ih hys⟩
      intro b hb
      rcases List.mem_cons.mp ((insertQ_perm ys q).mem_iff.mp hb) with hb | hb
      · rw [hb]; exact not_lt.mp h
      · exact hy b hb

lemma sortQ_sorted (l : List ℚ) : (sortQ l).Sorted (· ≤ ·) := by
  induction l with
  | nil => simp [sortQ]
  | cons q rest ih => exact insertQ_sorted (sortQ rest) q ih

lemma getD_map_fin (s : List ℚ) (i : ℕ) (h : i < s.length) :
    (s.map JSNum.fin).getD i .nan = .fin (s.getD i 0) := by
  rw [List.getD_eq_getElem _ _ (by simpa using h),
    List.getD_eq_getElem _ _ h, List.getElem_map]

lemma fin_add_divNat_two (a b : ℚ) :
    ((JSNum.fin a).add (JSNum.fin b)).divNat 2 = .fin ((a + b) / 2) := by
  show JSNum.fin ((a + b) / (((1 : ℕ) : ℚ) + 1)) = _
  norm_num

lemma jsMedian_map_fin (s : List ℚ) (h : s ≠ []) :
    jsMedian (s.map .fin) = .fin (medianQ s) := by
  have hn : 0 < s.length := List.length_pos.mpr h
  rw [jsMedian, medianQ]
  simp only [List.length_map]
  by_cases hev : s.length % 2 = 0
  · rw [if_pos hev, if_pos hev]
    have hi1 : s.length / 2 - 1 < s.length := by omega
    have hi2 : s.length / 2 < s.length := by omega
    rw [getD_map_fin _ _ hi1, getD_map_fin _ _ hi2, fin_add_divNat_two]
  · rw [if_neg hev, if_neg hev]
    exact getD_map_fin _ _ (by omega)

/-- Bridge: `getBoxStats` on finite samples, expressed through the spec-side
sorted list, halves and medians. -/
lemma getBoxStats_fin_eval (l : List ℚ) (hne : l ≠ []) :
    getBoxStats (l.map .fin) =
      { min := .fin ((sortQ l).getD 0 0)
        q1 := if 2 ≤ l.length then .fin (medianQ (lowerHalfQ (sortQ l)))
              else .fin ((sortQ l).getD 0 0)
        median := .fin (medianQ (sortQ l))
        q3 := if 2 ≤ l.length then .fin (medianQ (upperHalfQ (sortQ l)))
              else .fin ((sortQ l).getD ((sortQ l).length - 1) 0)
        max := .fin ((sortQ l).getD ((sortQ l).length - 1) 0) } := by
  have hs := jsSortAsc_map_fin l
  have hlen : (sortQ l).length = l.length := (sortQ_perm l).length_eq
  have hn : 0 < l.length := List.length_pos.mpr hne
  have hsne : sortQ l ≠ [] := by
    intro h0
    rw [h0] at hlen
    simp at hlen
    omega
  have hmin : (getBoxStats (l.map .fin)).min =
      (jsSortAsc (l.map .fin)).getD 0 .nan := rfl
  have hmax : (getBoxStats (l.map .fin)).max =
      (jsSortAsc (l.map .fin)).getD ((jsSortAsc (l.map .fin)).length - 1)
        .nan := rfl
  have hmed : (getBoxStats (l.map .fin)).median =
      jsMedian (jsSortAsc (l.map .fin)) := rfl
  have hq1 : (getBoxStats (l.map .fin)).q1 =
      (if ((jsSortAsc (l.map .fin)).take
            ((jsSortAsc (l.map .fin)).length / 2)).length ≠ 0
       then jsMedian ((jsSortAsc (l.map .fin)).take
            ((jsSortAsc (l.map .fin)).length / 2))
       else (jsSortAsc (l.map .fin)).getD 0 .nan) := rfl
  have hq3 : (getBoxStats (l.map .fin)).q3 =
      (if (if (jsSortAsc (l.map .fin)).length % 2 = 0 then
            (jsSortAsc (l.map .fin)).drop ((jsSortAsc (l.map .fin)).length / 2)
          else (jsSortAsc (l.map .fin)).drop
            ((jsSortAsc (l.map .fin)).length / 2 + 1)).length ≠ 0
       then jsMedian (if (jsSortAsc (l.map .fin)).length % 2 = 0 then
            (jsSortAsc (l.map .fin)).drop ((jsSortAsc (l.map .fin)).length / 2)
          else (jsSortAsc (l.map .fin)).drop
            ((jsSortAsc (l.map .fin)).length / 2 + 1))
       else (jsSortAsc (l.map .fin)).getD
            ((jsSortAsc (l.map .fin)).length - 1) .nan) := rfl
  rw [hs] at hmin hmax hmed hq1 hq3
  simp only [List.length_map, ← List.map_take, ← List.map_drop,
    List.length_take, List.length_drop] at hmin hmax hmed hq1 hq3
  have e1 : (getBoxStats (l.map .fin)).min = .fin ((sortQ l).getD 0 0) := by
    rw [hmin, getD_map_fin _ _ (by omega)]
  have e5 : (getBoxStats (l.map .fin)).max =
      .fin ((sortQ l).getD ((sortQ l).length - 1) 0) := by
    rw [hmax, getD_map_fin _ _ (by omega)]
  have e3 : (getBoxStats (l.map .fin)).median = .fin (medianQ (sortQ l)) := by
    rw [hmed, jsMedian_map_fin _ hsne]
  have e2 : (getBoxStats (l.map .fin)).q1 =
      (if 2 ≤ l.length then .fin (medianQ (lowerHalfQ (sortQ l)))
       else .fin ((sortQ l).getD 0 0)) := by
    by_cases h2 : 2 ≤ l.length
    · rw [if_pos (by omega : min ((sortQ l).length / 2) (sortQ l).length ≠ 0)]
        at hq1
      rw [jsMedian_map_fin _ (by
        intro h0
        have hw := congrArg List.length h0
        simp only [List.length_take, List.length_nil] at hw
        omega)] at hq1
      rw [hq1, if_pos h2]
      rfl
    · rw [if_neg (by omega : ¬min ((sortQ l).length / 2) (sortQ l).length ≠ 0)]
        at hq1
      rw [hq1, if_neg h2, getD_map_fin _ _ (by omega)]
  have e4 : (getBoxStats (l.map .fin)).q3 =
      (if 2 ≤ l.length then .fin (medianQ (upperHalfQ (sortQ l)))
       else .fin ((sortQ l).getD ((sortQ l).length - 1) 0)) := by
    by_cases hev : (sortQ l).length % 2 = 0
    · have h2 : 2 ≤ l.length := by omega
      rw [if_pos hev] at hq3
      rw [if_pos (show (List.map JSNum.fin
            (List.drop ((sortQ l).length / 2) (sortQ l))).length ≠ 0 by
          simp only [List.length_map, List.length_drop]
          omega)] at hq3
      rw [jsMedian_map_fin _ (by
        intro h0
        have hw := congrArg List.length h0
        simp only [List.length_drop, List.length_nil] at hw
        omega)] at hq3
      rw [hq3, if_pos h2, upperHalfQ, if_pos hev]
    · rw [if_neg hev] at hq3
      by_cases h2 : 2 ≤ l.length
      · rw [if_pos (show (List.map JSNum.fin
              (List.drop ((sortQ l).length / 2 + 1) (sortQ l))).length ≠ 0 by
            simp only [List.length_map, List.length_drop]
            omega)] at hq3
        rw [jsMedian_map_fin _ (by
          intro h0
          have hw := congrArg List.length h0
          simp only [List.length_drop, List.length_nil] at hw
          omega)] at hq3
        rw [hq3, if_pos h2, upperHalfQ, if_neg hev]
      · rw [if_neg (show ¬(List.map JSNum.fin
              (List.drop ((sortQ l).length / 2 + 1) (sortQ l))).length ≠ 0 by
            simp only [List.length_map, List.length_drop]
            omega)] at hq3
        rw [hq3, if_neg h2, getD_map_fin _ _ (by omega)]
  rw [show getBoxStats (l.map .fin) =
      ⟨(getBoxStats (l.map .fin)).min, (getBoxStats (l.map .fin)).q1,
       (getBoxStats (l.map .fin)).median, (getBoxStats (l.map .fin)).q3,
       (getBoxStats (l.map .fin)).max⟩ from rfl, e1, e2, e3, e4, e5]

/-- C3, counterexample: the claim states that for samples [1,2,3,4,5] the
box-plot statistics are min=1, q1=2, median=3, q3=4, max=5.  The code's
exclusive median-of-halves gives q1 = median of [1,2] = 1.5 and
q3 = median of [4,5] = 4.5, so the claimed record is not the result. -/
theorem getBoxStats_12345_ne_claimed :
    getBoxStats (([1, 2, 3, 4, 5] : List ℚ).map .fin) =
      ⟨.fin 1, .fin (3 / 2), .fin 3, .fin (9 / 2), .fin 5⟩ ∧
    (⟨.fin 1, .fin (3 / 2), .fin 3, .fin (9 / 2), .fin 5⟩ : BoxStats) ≠
      ⟨.fin 1, .fin 2, .fin 3, .fin 4, .fin 5⟩ := by
  constructor
  · with_unfolding_all decide
  · with_unfolding_all decide

/-- C3, amended: for samples [1,2,3,4,5] (odd length, middle element
excluded from both halves) the box-plot statistics builder returns min=1,
q1=1.5, median=3, q3=4.5, max=5. -/
theorem getBoxStats_12345 :
    getBoxStats (([1, 2, 3, 4, 5] : List ℚ).map .fin) =
      ⟨.fin 1, .fin (3 / 2), .fin 3, .fin (9 / 2), .fin 5⟩ := by
  with_unfolding_all decide

/-- C7: for every non-empty sample list the box-stats builder sorts
ascending (the spec-side `sortQ l` is a sorted permutation of the input and
is the sort the code computes), takes the median by the even/odd rule, and
takes Q1/Q3 as the medians of the lower/upper halves, the overall median
element excluded from both halves when the length is odd; in particular
[1,2,3,4] yields median 2.5, q1 1.5, q3 3.5. -/
theorem getBoxStats_median_of_halves (l : List ℚ) (hne : l ≠ []) :
    List.Sorted (· ≤ ·) (sortQ l) ∧ List.Perm (sortQ l) l ∧
    (getBoxStats (l.map .fin)).min = .fin ((sortQ l).getD 0 0) ∧
    (getBoxStats (l.map .fin)).max =
      .fin ((sortQ l).getD ((sortQ l).length - 1) 0) ∧
    (getBoxStats (l.map .fin)).median = .fin (medianQ (sortQ l)) ∧
    (2 ≤ l.length →
      (getBoxStats (l.map .fin)).q1 = .fin (medianQ (lowerHalfQ (sortQ l))) ∧
      (getBoxStats (l.map .fin)).q3 =
        .fin (medianQ (upperHalfQ (sortQ l)))) ∧
    getBoxStats (([1, 2, 3, 4] : List ℚ).map .fin) =
      ⟨.fin 1, .fin (3 / 2), .fin (5 / 2), .fin (7 / 2), .fin 4⟩ := by
  have hb := getBoxStats_fin_eval l hne
  refine ⟨sortQ_sorted l, sortQ_perm l, ?_, ?_, ?_, ?_, ?_⟩
  · rw [hb]
  · rw [hb]
  · rw [hb]
  · intro h2
    rw [hb]
    exact ⟨if_pos h2, if_pos h2⟩
  · with_unfolding_all decide

/-- C7, witness at the claim's own concrete input [1,2,3,4]. -/
theorem getBoxStats_median_of_halves_witness :
    (([1, 2, 3, 4] : List ℚ) ≠ []) ∧
    (List.Sorted (· ≤ ·) (sortQ [1, 2, 3, 4]) ∧
     List.Perm (sortQ [1, 2, 3, 4]) [1, 2, 3, 4] ∧
     (getBoxStats (([1, 2, 3, 4] : List ℚ).map .fin)).min =
       .fin ((sortQ [1, 2, 3, 4]).getD 0 0) ∧
     (getBoxStats (([1, 2, 3, 4] : List ℚ).map .fin)).max =
       .fin ((sortQ [1, 2, 3, 4]).getD ((sortQ [1, 2, 3, 4]).length - 1) 0) ∧
     (getBoxStats (([1, 2, 3, 4] : List ℚ).map .fin)).median =
       .fin (medianQ (sortQ [1, 2, 3, 4])) ∧
     (2 ≤ ([1, 2, 3, 4] : List ℚ).length →
       (getBoxStats (([1, 2, 3, 4] : List ℚ).map .fin)).q1 =
         .fin (medianQ (lowerHalfQ (sortQ [1, 2, 3, 4]))) ∧
       (getBoxStats (([1, 2, 3, 4] : List ℚ).map .fin)).q3 =
         .fin (medianQ (upperHalfQ (sortQ [1, 2, 3, 4])))) ∧
     getBoxStats (([1, 2, 3, 4] : List ℚ).map .fin) =
       ⟨.fin 1, .fin (3 / 2), .fin (5 / 2), .fin (7 / 2), .fin 4⟩) :=
  ⟨by simp, getBoxStats_median_of_halves [1, 2, 3, 4] (by simp)⟩

/-!  ## Claim C8: shared box-plot scale  -/

lemma max2_fin (a b : ℚ) : JSNum.max2 (.fin a) (.fin b) = .fin (max a b) := by
  by_cases h : a < b
  · simp [JSNum.max2, JSNum.isNaN, JSNum.ltb, h, max_eq_right h.le]
  · simp [JSNum.max2, JSNum.isNaN, JSNum.ltb, h, max_eq_left (not_lt.mp h)]

lemma min2_fin (a b : ℚ) : JSNum.min2 (.fin a) (.fin b) = .fin (min a b) := by
  by_cases h : b < a
  · simp [JSNum.min2, JSNum.isNaN, JSNum.ltb, h, min_eq_right h.le]
  · simp [JSNum.min2, JSNum.isNaN, JSNum.ltb, h, min_eq_left (not_lt.mp h)]

lemma foldl_max2_fin (qs : List ℚ) :
    ∀ a : ℚ, List.foldl JSNum.max2 (.fin a) (qs.map .fin) =
      .fin (qs.foldl max a) := by
  induction qs with
  | nil => intro a; rfl
  | cons q rest ih =>
    intro a
    simp only [List.map_cons, List.foldl_cons, max2_fin, ih]

lemma foldl_min2_fin (qs : List ℚ) :
    ∀ a : ℚ, List.foldl JSNum.min2 (.fin a) (qs.map .fin) =
      .fin (qs.foldl min a) := by
  induction qs with
  | nil => intro a; rfl
  | cons q rest ih =>
    intro a
    simp only [List.map_cons, List.foldl_cons, min2_fin, ih]

lemma jsMaxList_cons_fin (q0 : ℚ) (rest : List ℚ) :
    jsMaxList ((q0 :: rest).map .fin) = .fin (rest.foldl max q0) := by
  show List.foldl JSNum.max2 (JSNum.max2 .ninf (.fin q0)) (rest.map .fin) = _
  rw [show JSNum.max2 .ninf (.fin q0) = .fin q0 from rfl, foldl_max2_fin]

lemma jsMinList_cons_fin (q0 : ℚ) (rest : List ℚ) :
    jsMinList ((q0 :: rest).map .fin) = .fin (rest.foldl min q0) := by
  show List.foldl JSNum.min2 (JSNum.min2 .inf (.fin q0)) (rest.map .fin) = _
  rw [show JSNum.min2 .inf (.fin q0) = .fin q0 from rfl, foldl_min2_fin]

lemma foldl_max_le (qs : List ℚ) :
    ∀ a c : ℚ, a ≤ c → (∀ q ∈ qs, q ≤ c) → qs.foldl max a ≤ c := by
  induction qs with
  | nil => intro a c ha _; exact ha
  | cons q rest ih =>
    intro a c ha hq
    exact ih (max a q) c (max_le ha (hq q (List.mem_cons_self q rest)))
      (fun x hx => hq x (List.mem_cons_of_mem q hx))

lemma foldl_max_ge (qs : List ℚ) : ∀ a : ℚ, a ≤ qs.foldl max a := by
  induction qs with
  | nil => intro a; exact le_refl a
  | cons q rest ih =>
    intro a
    exact (le_max_left a q).trans (ih (max a q))

lemma foldl_max_ge_mem (qs : List ℚ) :
    ∀ a x : ℚ, x ∈ qs → x ≤ qs.foldl max a := by
  induction qs with
  | nil => intro a x hx; exact absurd hx (List.not_mem_nil x)
  | cons q rest ih =>
    intro a x hx
    rcases List.mem_cons.mp hx with hx | hx
    · rw [hx]
      exact (le_max_right a q).trans (foldl_max_ge rest (max a q))
    · exact ih (max a q) x hx

lemma foldl_max_eq (rest : List ℚ) (q0 gmax : ℚ)
    (hmem : gmax = q0 ∨ gmax ∈ rest)
    (hub : q0 ≤ gmax ∧ ∀ q ∈ rest, q ≤ gmax) :
    rest.foldl max q0 = gmax := by
  refine le_antisymm (foldl_max_le rest q0 gmax hub.1 hub.2) ?_
  rcases hmem with h | h
  · rw [h]; exact foldl_max_ge rest q0
  · exact foldl_max_ge_mem rest q0 gmax h

lemma foldl_min_ge (qs : List ℚ) :
    ∀ a c : ℚ, c ≤ a → (∀ q ∈ qs, c ≤ q) → c ≤ qs.foldl min a := by
  induction qs with
  | nil => intro a c ha _; exact ha
  | cons q rest ih =>
    intro a c ha hq
    exact ih (min a q) c (le_min ha (hq q (List.mem_cons_self q rest)))
      (fun x hx => hq x (List.mem_cons_of_mem q hx))

lemma foldl_min_le (qs : List ℚ) : ∀ a : ℚ, qs.foldl min a ≤ a := by
  induction qs with
  | nil => intro a; exact le_refl a
  | cons q rest ih =>
    intro a
    exact (ih (min a q)).trans (min_le_left a q)

lemma foldl_min_le_mem (qs : List ℚ) :
    ∀ a x : ℚ, x ∈ qs → qs.foldl min a ≤ x := by
  induction qs with
  | nil => intro a x hx; exact absurd hx (List.not_mem_nil x)
  | cons q rest ih =>
    intro a x hx
    rcases List.mem_cons.mp hx with hx | hx
    · rw [hx]
      exact (foldl_min_le rest (min a q)).trans (min_le_right a q)
    · exact ih (min a q) x hx

lemma foldl_min_eq (rest : List ℚ) (q0 gmin : ℚ)
    (hmem : gmin = q0 ∨ gmin ∈ rest)
    (hlb : gmin ≤ q0 ∧ ∀ q ∈ rest, gmin ≤ q) :
    rest.foldl min q0 = gmin := by
  refine le_antisymm ?_ (foldl_min_ge rest q0 gmin hlb.1 hlb.2)
  rcases hmem with h | h
  · rw [h]; exact foldl_min_le rest q0
  · exact foldl_min_le_mem rest q0 gmin h

/-- C8, counterexample: the claim concludes that the shared scale always
satisfies yMax − yMin > 0.  With one included experiment whose single sample
is the string "Infinity" (one sample, as the claim requires), the sample is
+Infinity, the code's range default fires (∞ − ∞ is NaN, which is falsy),
and yMax − yMin = ∞ − ∞ = NaN, which is not greater than 0. -/
theorem boxScale_infinite_sample_range_nan :
    extractValues (getRV ⟨"A", [("k", .prim (.str "Infinity"))]⟩ "k") =
      [JSNum.inf] ∧
    (([⟨"A", [("k", .prim (.str "Infinity"))]⟩] : List Experiment).map
        (fun ex => extractValues (getRV ex "k"))).flatten = [JSNum.inf] ∧
    (boxScale [JSNum.inf]).2.sub (boxScale [JSNum.inf]).1 = .nan ∧
    JSNum.ltb (.fin 0)
      ((boxScale [JSNum.inf]).2.sub (boxScale [JSNum.inf]).1) = false := by
  refine ⟨?_, ?_, ?_, ?_⟩ <;> with_unfolding_all decide

/-- C8, amended: when every sample of the included experiments is finite
(samples `qs`, global minimum `gmin`, global maximum `gmax`), the shared
scale is exactly `yMin = gmin − rg/10`, `yMax = gmax + rg/10` with
`rg = gmax − gmin`, except `rg = 1` when `gmax = gmin`; consequently
`yMax − yMin > 0` and the position mapping's divisor is a positive finite
number, never zero. -/
theorem boxScale_finite_spec (boxKey : String) (visible : List Experiment)
    (qs : List ℚ) (gmin gmax rg : ℚ)
    (hsamples : ((visible.map (fun ex =>
      extractValues (getRV ex boxKey))).flatten) = qs.map .fin)
    (hne : qs ≠ [])
    (hminmem : gmin ∈ qs) (hminlb : ∀ q ∈ qs, gmin ≤ q)
    (hmaxmem : gmax ∈ qs) (hmaxub : ∀ q ∈ qs, q ≤ gmax)
    (hrg : rg = if gmax = gmin then 1 else gmax - gmin) :
    boxScale ((visible.map (fun ex =>
        extractValues (getRV ex boxKey))).flatten) =
      (.fin (gmin - rg / 10), .fin (gmax + rg / 10)) ∧
    0 < (gmax + rg / 10) - (gmin - rg / 10) := by
  rw [hsamples]
  cases qs with
  | nil => exact absurd rfl hne
  | cons q0 rest =>
    have hle : gmin ≤ gmax := hminlb gmax hmaxmem
    have hmaxeq : jsMaxList ((q0 :: rest).map .fin) = .fin gmax := by
      rw [jsMaxList_cons_fin,
        foldl_max_eq rest q0 gmax
          (by rcases List.mem_cons.mp hmaxmem with h | h
              · exact Or.inl h
              · exact Or.inr h)
          ⟨hmaxub q0 (List.mem_cons_self q0 rest),
           fun q hq => hmaxub q (List.mem_cons_of_mem q0 hq)⟩]
    have hmineq : jsMinList ((q0 :: rest).map .fin) = .fin gmin := by
      rw [jsMinList_cons_fin,
        foldl_min_eq rest q0 gmin
          (by rcases List.mem_cons.mp hminmem with h | h
              · exact Or.inl h
              · exact Or.inr h)
          ⟨hminlb q0 (List.mem_cons_self q0 rest),
           fun q hq => hminlb q (List.mem_cons_of_mem q0 hq)⟩]
    have hunfold : boxScale ((q0 :: rest).map .fin) =
        ((jsMinList ((q0 :: rest).map .fin)).sub
          ((jsOrElse ((jsMaxList ((q0 :: rest).map .fin)).sub
              (jsMinList ((q0 :: rest).map .fin))) (.fin 1)).mul
            (.fin (1 / 10))),
         (jsMaxList ((q0 :: rest).map .fin)).add
          ((jsOrElse ((jsMaxList ((q0 :: rest).map .fin)).sub
              (jsMinList ((q0 :: rest).map .fin))) (.fin 1)).mul
            (.fin (1 / 10)))) := rfl
    rw [hunfold, hmaxeq, hmineq]
    have hsub : (JSNum.fin gmax).sub (.fin gmin) = .fin (gmax - gmin) := rfl
    have hrange : jsOrElse ((JSNum.fin gmax).sub (.fin gmin)) (.fin 1) =
        .fin rg := by
      rw [hsub, jsOrElse]
      by_cases h : gmax = gmin
      · rw [if_neg (by simp [JSNum.truthy, h]), hrg, if_pos h]
      · rw [if_pos (by simp [JSNum.truthy, sub_ne_zero.mpr h]), hrg, if_neg h]
    rw [hrange]
    have hpad : (JSNum.fin rg).mul (.fin (1 / 10)) = .fin (rg / 10) := by
      show JSNum.fin (rg * (1 / 10)) = .fin (rg / 10)
      rw [mul_one_div]
    rw [hpad]
    refine ⟨rfl, ?_⟩
    by_cases h : gmax = gmin
    · rw [hrg, if_pos h, h]
      norm_num
    · rw [hrg, if_neg h]
      have hlt : gmin < gmax := lt_of_le_of_ne hle (fun he => h he.symm)
      have h0 : 0 < gmax - gmin := sub_pos.mpr hlt
      linarith

/-- C8, witness for the amended theorem: one experiment with samples
[10, 10] gives yMin = 9.9 and yMax = 10.1. -/
theorem boxScale_finite_spec_witness :
    ((([⟨"A", [("k", .arr [.num (.fin 10), .num (.fin 10)])]⟩] :
        List Experiment).map (fun ex =>
      extractValues (getRV ex "k"))).flatten = ([10, 10] : List ℚ).map .fin) ∧
    (boxScale ((([⟨"A", [("k", .arr [.num (.fin 10), .num (.fin 10)])]⟩] :
        List Experiment).map (fun ex =>
      extractValues (getRV ex "k"))).flatten) =
        (.fin (10 - 1 / 10), .fin (10 + 1 / 10)) ∧
      0 < ((10 : ℚ) + 1 / 10) - (10 - 1 / 10)) :=
  ⟨by with_unfolding_all decide,
   boxScale_finite_spec "k"
     [⟨"A", [("k", .arr [.num (.fin 10), .num (.fin 10)])]⟩]
     [10, 10] 10 10 1
     (by with_unfolding_all decide)
     (by with_unfolding_all decide)
     (by with_unfolding_all decide)
     (by with_unfolding_all decide)
     (by with_unfolding_all decide)
     (by with_unfolding_all decide)
     (by with_unfolding_all decide)⟩

/-!  ## Claim C9: default key repair  -/

/-- C9: given a non-empty valid quantitative-included key list (whose keys,
being schema keys, are non-empty strings), the repair keeps every selection
that is still valid and replaces a stale one with the first valid key;
scatter-Y is replaced by the second valid key when at least two exist, else
by the first. -/
theorem repairKeys_spec (validKeys : List String) (sel : ChartSelection)
    (hne : validKeys ≠ []) (hkeys : ∀ k ∈ validKeys, k ≠ "") :
    ((sel.barKey ∈ validKeys →
        (repairKeys validKeys sel).barKey = sel.barKey) ∧
     (sel.barKey ∉ validKeys →
        (repairKeys validKeys sel).barKey = validKeys.getD 0 "")) ∧
    ((sel.lineKey ∈ validKeys →
        (repairKeys validKeys sel).lineKey = sel.lineKey) ∧
     (sel.lineKey ∉ validKeys →
        (repairKeys validKeys sel).lineKey = validKeys.getD 0 "")) ∧
    ((sel.boxKey ∈ validKeys →
        (repairKeys validKeys sel).boxKey = sel.boxKey) ∧
     (sel.boxKey ∉ validKeys →
        (repairKeys validKeys sel).boxKey = validKeys.getD 0 "")) ∧
    ((sel.scatterXKey ∈ validKeys →
        (repairKeys validKeys sel).scatterXKey = sel.scatterXKey) ∧
     (sel.scatterXKey ∉ validKeys →
        (repairKeys validKeys sel).scatterXKey = validKeys.getD 0 "")) ∧
    ((sel.scatterYKey ∈ validKeys →
        (repairKeys validKeys sel).scatterYKey = sel.scatterYKey) ∧
     (sel.scatterYKey ∉ validKeys →
        (repairKeys validKeys sel).scatterYKey =
          if 1 < validKeys.length then validKeys.getD 1 ""
          else validKeys.getD 0 "")) := by
  have hlen : ¬validKeys.length = 0 := by
    intro h0
    exact hne (List.length_eq_zero.mp h0)
  rw [repairKeys, if_neg hlen]
  refine ⟨⟨?_, ?_⟩, ⟨?_, ?_⟩, ⟨?_, ?_⟩, ⟨?_, ?_⟩, ⟨?_, ?_⟩⟩ <;> intro hmem
  all_goals
    simp only [List.contains, List.elem_iff]
  · simp [hkeys _ hmem, hmem]
  · simp [hmem]
  · simp [hkeys _ hmem, hmem]
  · simp [hmem]
  · simp [hkeys _ hmem, hmem]
  · simp [hmem]
  · simp [hkeys _ hmem, hmem]
  · simp [hmem]
  · simp [hkeys _ hmem, hmem]
  · simp [hmem]

/-- C9, witness: valid keys ["a","b","c"]; the stale selection "z"
becomes "a" for bar/line/box/scatter-X and "b" for scatter-Y, while a
still-valid "b" would be preserved (the in-set conjuncts hold vacuously or
directly at this input). -/
theorem repairKeys_spec_witness :
    ((["a", "b", "c"] : List String) ≠ []) ∧
    ((("z" ∈ (["a", "b", "c"] : List String) →
        (repairKeys ["a", "b", "c"] ⟨"z", "z", "z", "z", "z"⟩).barKey = "z") ∧
      ("z" ∉ (["a", "b", "c"] : List String) →
        (repairKeys ["a", "b", "c"] ⟨"z", "z", "z", "z", "z"⟩).barKey =
          (["a", "b", "c"] : List String).getD 0 "")) ∧
     (("z" ∈ (["a", "b", "c"] : List String) →
        (repairKeys ["a", "b", "c"] ⟨"z", "z", "z", "z", "z"⟩).lineKey = "z") ∧
      ("z" ∉ (["a", "b", "c"] : List String) →
        (repairKeys ["a", "b", "c"] ⟨"z", "z", "z", "z", "z"⟩).lineKey =
          (["a", "b", "c"] : List String).getD 0 "")) ∧
     (("z" ∈ (["a", "b", "c"] : List String) →
        (repairKeys ["a", "b", "c"] ⟨"z", "z", "z", "z", "z"⟩).boxKey = "z") ∧
      ("z" ∉ (["a", "b", "c"] : List String) →
        (repairKeys ["a", "b", "c"] ⟨"z", "z", "z", "z", "z"⟩).boxKey =
          (["a", "b", "c"] : List String).getD 0 "")) ∧
     (("z" ∈ (["a", "b", "c"] : List String) →
        (repairKeys ["a", "b", "c"] ⟨"z", "z", "z", "z", "z"⟩).scatterXKey =
          "z") ∧
      ("z" ∉ (["a", "b", "c"] : List String) →
        (repairKeys ["a", "b", "c"] ⟨"z", "z", "z", "z", "z"⟩).scatterXKey =
          (["a", "b", "c"] : List String).getD 0 "")) ∧
     (("z" ∈ (["a", "b", "c"] : List String) →
        (repairKeys ["a", "b", "c"] ⟨"z", "z", "z", "z", "z"⟩).scatterYKey =
          "z") ∧
      ("z" ∉ (["a", "b", "c"] : List String) →
        (repairKeys ["a", "b", "c"] ⟨"z", "z", "z", "z", "z"⟩).scatterYKey =
          if 1 < (["a", "b", "c"] : List String).length then
            (["a", "b", "c"] : List String).getD 1 ""
          else (["a", "b", "c"] : List String).getD 0 ""))) :=
  ⟨by decide,
   repairKeys_spec ["a", "b", "c"] ⟨"z", "z", "z", "z", "z"⟩
     (by decide) (by decide)⟩

/-!  ## Claim C10: material ratio invariant  -/

lemma foldl_add_amount (ms : List MaterialLine) :
    ∀ a : ℚ, ms.foldl (fun s m => s + m.amount) a =
      a + (ms.map MaterialLine.amount).sum := by
  induction ms with
  | nil => intro a; simp
  | cons m rest ih =>
    intro a
    simp only [List.foldl_cons, ih, List.map_cons, List.sum_cons]
    ring

lemma totalAmount_eq_sum (ms : List MaterialLine) :
    totalAmount ms = (ms.map MaterialLine.amount).sum := by
  rw [totalAmount, foldl_add_amount, zero_add]

lemma recomputeRatios_amounts (xs : List MaterialLine) :
    (recomputeRatios xs).map MaterialLine.amount =
      xs.map MaterialLine.amount := by
  show ((xs.map _).map MaterialLine.amount) = _
  rw [List.map_map]
  rfl

lemma sum_filter_pos_amount (xs : List MaterialLine)
    (hnn : ∀ m ∈ xs, 0 ≤ m.amount) :
    ((xs.filter (fun m => decide (0 < m.amount))).map
      MaterialLine.amount).sum = (xs.map MaterialLine.amount).sum := by
  induction xs with
  | nil => rfl
  | cons m rest ih =>
    have hrest : ∀ x ∈ rest, 0 ≤ x.amount :=
      fun x hx => hnn x (List.mem_cons_of_mem m hx)
    rw [List.filter_cons]
    by_cases h : 0 < m.amount
    · rw [if_pos (by simpa using h)]
      simp only [List.map_cons, List.sum_cons, ih hrest]
    · rw [if_neg (by simpa using h)]
      have h0 : m.amount = 0 :=
        le_antisymm (not_lt.mp h) (hnn m (List.mem_cons_self m rest))
      simp only [List.map_cons, List.sum_cons, ih hrest, h0, zero_add]

lemma recomputeRatios_invariant (xs : List MaterialLine)
    (hnn : ∀ m ∈ xs, 0 ≤ m.amount) :
    (0 < totalAmount xs →
      (((recomputeRatios xs).filter (fun m => decide (0 < m.amount))).map
        MaterialLine.ratio).sum = 100) ∧
    (totalAmount xs = 0 → ∀ m ∈ recomputeRatios xs, m.ratio = 0) := by
  constructor
  · intro hpos
    have hT : totalAmount xs ≠ 0 := ne_of_gt hpos
    show ((((xs.map (fun m => { m with
        ratio := if 0 < totalAmount xs then
          m.amount / totalAmount xs * 100 else 0 })).filter
        (fun m => decide (0 < m.amount))).map MaterialLine.ratio).sum) = 100
    simp only [if_pos hpos]
    rw [List.filter_map, List.map_map]
    have hfe : ((fun m : MaterialLine => decide (0 < m.amount)) ∘
        (fun m : MaterialLine => { m with
          ratio := m.amount / totalAmount xs * 100 })) =
        (fun m : MaterialLine => decide (0 < m.amount)) := rfl
    rw [hfe]
    have hre : (MaterialLine.ratio ∘ (fun m : MaterialLine => { m with
        ratio := m.amount / totalAmount xs * 100 })) =
        (fun m : MaterialLine => m.amount * (100 / totalAmount xs)) := by
      funext m
      show m.amount / totalAmount xs * 100 = _
      rw [div_mul_eq_mul_div, mul_div_assoc]
    rw [hre]
    have hmul : ∀ l : List MaterialLine,
        (l.map (fun m => m.amount * (100 / totalAmount xs))).sum =
          (l.map MaterialLine.amount).sum * (100 / totalAmount xs) := by
      intro l
      induction l with
      | nil => simp
      | cons m rest ih =>
        simp only [List.map_cons, List.sum_cons, ih]
        ring
    rw [hmul, sum_filter_pos_amount xs hnn, ← totalAmount_eq_sum]
    field_simp
  · intro hzero
    intro m hm
    rcases List.mem_map.mp hm with ⟨m0, _, hm0⟩
    rw [← hm0]
    show (if 0 < totalAmount xs then m0.amount / totalAmount xs * 100
      else 0) = 0
    rw [if_neg (by rw [hzero]; exact lt_irrefl 0)]

/-- C10, counterexample: the claim states that after every update the ratios
of the positive-amount materials sum to exactly 100 whenever the total is
positive.  Editing the second material's amount to −2 (total 5 + (−2) = 3 >
0) gives that sum the value 500/3 ≠ 100. -/
theorem updateMaterial_negative_amount :
    totalAmount (updateMaterial 1 ⟨none, some (-2), none, none⟩
      [⟨"a", 5, .g, 0⟩, ⟨"b", 1, .g, 0⟩]) = 3 ∧
    (((updateMaterial 1 ⟨none, some (-2), none, none⟩
        [⟨"a", 5, .g, 0⟩, ⟨"b", 1, .g, 0⟩]).filter
      (fun m => decide (0 < m.amount))).map MaterialLine.ratio).sum =
      500 / 3 ∧
    ((500 : ℚ) / 3) ≠ 100 := by
  refine ⟨?_, ?_, ?_⟩ <;>
    (set_option maxRecDepth 4000 in with_unfolding_all decide)

/-- C10, amended: after `updateMaterial` or `removeMaterial`, provided every
resulting material amount is non-negative, the recomputed ratios of the
materials with positive amount sum to exactly 100 when the total amount is
positive, and every ratio is 0 when the total amount is 0. -/
theorem materialRatios_invariant (prev : List MaterialLine) (idx : ℕ)
    (patch : MaterialPatch) (ms : List MaterialLine)
    (hms : ms = updateMaterial idx patch prev ∨ ms = removeMaterial idx prev)
    (hnn : ∀ m ∈ ms, 0 ≤ m.amount) :
    (0 < totalAmount ms →
      ((ms.filter (fun m => decide (0 < m.amount))).map
        MaterialLine.ratio).sum = 100) ∧
    (totalAmount ms = 0 → ∀ m ∈ ms, m.ratio = 0) := by
  have main : ∀ xs : List MaterialLine, ms = recomputeRatios xs →
      ((0 < totalAmount ms →
        ((ms.filter (fun m => decide (0 < m.amount))).map
          MaterialLine.ratio).sum = 100) ∧
       (totalAmount ms = 0 → ∀ m ∈ ms, m.ratio = 0)) := by
    intro xs hxs
    have htot : totalAmount ms = totalAmount xs := by
      rw [hxs, totalAmount_eq_sum, totalAmount_eq_sum, recomputeRatios_amounts]
    have hnnx : ∀ m ∈ xs, 0 ≤ m.amount := by
      intro m hm
      have hmem2 : ({ m with ratio := if 0 < totalAmount xs then
          m.amount / totalAmount xs * 100 else 0 } : MaterialLine) ∈ ms := by
        rw [hxs]
        exact List.mem_map_of_mem _ hm
      exact hnn ({ m with ratio := if 0 < totalAmount xs then
        m.amount / totalAmount xs * 100 else 0 }) hmem2
    have hinv := recomputeRatios_invariant xs hnnx
    constructor
    · intro hpos
      rw [hxs]
      exact hinv.1 (htot ▸ hpos)
    · intro hzero
      rw [hxs]
      exact hinv.2 (htot ▸ hzero)
  rcases hms with h | h
  · exact main _ (by rw [h, updateMaterial])
  · exact main _ (by rw [h, removeMaterial])

/-- C10, witness for the amended theorem: removing the first material from
[("a", 5), ("b", 1)] leaves [("b", 1)] with ratio 100. -/
theorem materialRatios_invariant_witness :
    ((removeMaterial 0 [⟨"a", 5, .g, 0⟩, ⟨"b", 1, .g, 0⟩] =
        updateMaterial 0 ⟨none, none, none, none⟩
          [⟨"a", 5, .g, 0⟩, ⟨"b", 1, .g, 0⟩] ∨
      removeMaterial 0 [⟨"a", 5, .g, 0⟩, ⟨"b", 1, .g, 0⟩] =
        removeMaterial 0 [⟨"a", 5, .g, 0⟩, ⟨"b", 1, .g, 0⟩]) ∧
     (∀ m ∈ removeMaterial 0 [⟨"a", 5, .g, 0⟩, ⟨"b", 1, .g, 0⟩],
        0 ≤ m.amount)) ∧
    ((0 < totalAmount (removeMaterial 0 [⟨"a", 5, .g, 0⟩, ⟨"b", 1, .g, 0⟩]) →
      (((removeMaterial 0 [⟨"a", 5, .g, 0⟩, ⟨"b", 1, .g, 0⟩]).filter
        (fun m => decide (0 < m.amount))).map MaterialLine.ratio).sum =
        100) ∧
     (totalAmount (removeMaterial 0 [⟨"a", 5, .g, 0⟩, ⟨"b", 1, .g, 0⟩]) = 0 →
      ∀ m ∈ removeMaterial 0 [⟨"a", 5, .g, 0⟩, ⟨"b", 1, .g, 0⟩],
        m.ratio = 0)) :=
  ⟨⟨Or.inr rfl, by with_unfolding_all decide⟩,
   materialRatios_invariant [⟨"a", 5, .g, 0⟩, ⟨"b", 1, .g, 0⟩] 0
     ⟨none, none, none, none⟩
     (removeMaterial 0 [⟨"a", 5, .g, 0⟩, ⟨"b", 1, .g, 0⟩])
     (Or.inr rfl) (by with_unfolding_all decide)⟩

end NoteApp

